import Mathlib

/-!
Shallow embedding of the invite-quota and referral-attribution engine of
`src/bot.py`.  Python strings are modelled as `List Char` (statuses and chat
types, which are only compared for equality, as `String`), Python integers as
`Nat`/`Int` (they are unbounded), the two SQLite tables as association lists
keyed by their primary keys, and every fallible operation returns an `Option`
or an explicit result constructor.  External collaborators (Telegram API
calls) are inputs: the membership fetch, the provider success flag and the
random salt are passed in, and the commands the engine issues (restriction,
announcement) are returned as data.
-/

/-- Constant INVITE_EXPIRE_SECONDS from the config block of bot.py (1 hour). -/
def INVITE_EXPIRE_SECONDS : Nat := 3600

/-- Constant INVITE_MEMBER_LIMIT from the config block of bot.py (single use). -/
def INVITE_MEMBER_LIMIT : Nat := 1

/-- Constant WEEKLY_INVITE_LIMIT from the config block of bot.py. -/
def WEEKLY_INVITE_LIMIT : Nat := 2

/-- Constant MUTE_SECONDS from the config block of bot.py (24 hours). -/
def MUTE_SECONDS : Nat := 24 * 3600

/-! ### Python `int(...)` on strings, restricted to ASCII input

`int(parts[1])` in `chat_member_update` parses an optional sign and a
digit string in which single underscores may stand between digits, with
surrounding whitespace stripped.  (Python additionally accepts non-ASCII
decimal digits and Unicode whitespace; the embedding models the ASCII
fragment.) -/

/-- Character class of ASCII whitespace stripped by Python `int(...)`. -/
def isPySpace (c : Char) : Bool :=
  c == ' ' || c == '\t' || c == '\n' || c == '\r' || c == '\x0b' || c == '\x0c'

/-- Strip leading and trailing Python whitespace. -/
def stripPySpace (l : List Char) : List Char :=
  ((l.dropWhile isPySpace).reverse.dropWhile isPySpace).reverse

/-- Head of the list is an ASCII digit. -/
def headDigit : List Char → Bool
  | [] => false
  | c :: _ => c.isDigit

/-- No two adjacent underscores (Python rejects `1__2`). -/
def noDoubleUnderscore : List Char → Bool
  | [] => true
  | [_] => true
  | a :: b :: rest => !(a == '_' && b == '_') && noDoubleUnderscore (b :: rest)

/-- The body of a Python integer literal: digits with single interior
underscores, i.e. nonempty, first and last characters digits, every character
a digit or an underscore, and no doubled underscore. -/
def validDigits (l : List Char) : Bool :=
  !l.isEmpty && l.all (fun c => c.isDigit || c == '_') &&
    headDigit l && headDigit l.reverse && noDoubleUnderscore l

/-- Accumulate the decimal value of the digit characters, skipping
underscores. -/
def digitStep (acc : Nat) (c : Char) : Nat :=
  if c.isDigit then acc * 10 + (c.toNat - 48) else acc

/-- Decimal value of a digit-and-underscore body. -/
def digitsValue (l : List Char) : Nat := l.foldl digitStep 0

/-- Parse a digit body, `none` on any malformation. -/
def parseDigits (l : List Char) : Option Nat :=
  if validDigits l then some (digitsValue l) else none

/-- Sign-and-digit-body phase of Python `int(...)`. -/
def pySigned : List Char → Option Int
  | [] => none
  | c :: rest =>
    if c = '+' then (parseDigits rest).map (fun n => (n : Int))
    else if c = '-' then (parseDigits rest).map (fun n => -(n : Int))
    else (parseDigits (c :: rest)).map (fun n => (n : Int))

/-- Python `int(s)` on an ASCII string: strip whitespace, optional sign,
digit body; `none` models the `ValueError` that the caller catches. -/
def pyInt (s : List Char) : Option Int := pySigned (stripPySpace s)

/-! ### Token codec

`start_command` builds the invite-link name `f"ref:{user.id}:{token}"` with
`token = uuid4().hex[:8]`; `chat_member_update` recovers the referrer with
`name.split(":")` and `int(parts[1])` guarded by `name.startswith("ref:")`
and a catch-all `except`. -/

/-- Decimal representation of a natural number, as produced by Python string
formatting of a nonnegative int. -/
def digitChar (n : Nat) : Char := Char.ofNat (48 + n)

/-- Fuel-driven decimal printer; `fuel > n` suffices since the argument
shrinks by a factor of 10 each step. -/
def natDecimalAux : Nat → Nat → List Char
  | 0, _ => []
  | fuel + 1, n =>
    if n < 10 then [digitChar n]
    else natDecimalAux fuel (n / 10) ++ [digitChar (n % 10)]

/-- Decimal digit string of `n`, most significant first. -/
def natDecimal (n : Nat) : List Char := natDecimalAux (n + 1) n

/-- Tag carried by every token name this engine produces. -/
def refTag : List Char := ['r', 'e', 'f', ':']

/-- Token-name encoder: `f"ref:{user.id}:{token}"` of `start_command`. -/
def encode (referrer : Nat) (salt : List Char) : List Char :=
  refTag ++ natDecimal referrer ++ ':' :: salt

/-- Test for the `ref:` prefix, `name.startswith("ref:")`. -/
def hasRefTag (s : List Char) : Bool :=
  match s with
  | c1 :: c2 :: c3 :: c4 :: _ => c1 == 'r' && c2 == 'e' && c3 == 'f' && c4 == ':'
  | _ => false

/-- Prepend a character to the first chunk of a split. -/
def consHead (c : Char) : List (List Char) → List (List Char)
  | [] => [[c]]
  | h :: t => (c :: h) :: t

/-- Python `name.split(":")`: split on every colon, keeping empty chunks. -/
def splitCols : List Char → List (List Char)
  | [] => [[]]
  | c :: rest => if c = ':' then [] :: splitCols rest else consHead c (splitCols rest)

/-- Second colon-separated field of a string, `parts[1]`. -/
def secondField (s : List Char) : Option (List Char) := (splitCols s)[1]?

/-- Token-name decoder of `chat_member_update`: require the `ref:` prefix,
split on colons and parse field 1 as a Python int; any failure (missing
prefix, missing field, malformed integer) yields `none` — the source catches
every exception and leaves `referrer_info = None`. -/
def decode (name : List Char) : Option Int :=
  if hasRefTag name then
    match secondField name with
    | some p => pyInt p
    | none => none
  else none

/-- Character class of a lowercase hex digit, the alphabet of
`uuid4().hex`. -/
def isLowerHex (c : Char) : Bool :=
  c.isDigit || ('a' ≤ c && c ≤ 'f')

/-- Salts the generator `uuid4().hex[:8]` can produce: exactly 8 lowercase
hex characters. -/
def validSaltB (s : List Char) : Bool :=
  s.length == 8 && s.all isLowerHex

/-! ### Quota store

Table `invite_counts (user_id, year, week, count)` with primary key
`(user_id, year, week)`; `current_year_week()` is
`datetime.utcnow().isocalendar()[:2]`.  The ISO `(year, week)` pair of a UTC
timestamp is in bijection with its Monday-aligned week number
`(days_since_epoch + 3) / 7` (1970-01-01 was a Thursday, so the Monday of its
ISO week is epoch day −3), and the embedding keys the table by that week
number. -/

/-- Monday-aligned ISO week number of an epoch-seconds timestamp; stands for
the `(year, week)` key of `current_year_week()`. -/
def weekIndex (t : Nat) : Nat := (t / 86400 + 3) / 7

/-- Rows of `invite_counts`: user id, week index, count. -/
abbrev QuotaTable := List (Nat × Nat × Nat)

/-- SELECT count FROM invite_counts WHERE user_id=? AND year=? AND week=?. -/
def quotaLookup : QuotaTable → Nat → Nat → Option Nat
  | [], _, _ => none
  | (u0, w0, c) :: rest, u, w =>
    if u0 = u ∧ w0 = w then some c else quotaLookup rest u w

/-- Function get_invite_count of bot.py: the stored count for the user's
current week, 0 when no row exists. -/
def get_invite_count (tbl : QuotaTable) (u : Nat) (now : Nat) : Nat :=
  (quotaLookup tbl u (weekIndex now)).getD 0

/-- Function increment_invite_count of bot.py: the upsert
`INSERT ... ON CONFLICT(user_id, year, week) DO UPDATE SET count = count + 1`. -/
def increment_invite_count : QuotaTable → Nat → Nat → QuotaTable
  | [], u, t => [(u, weekIndex t, 1)]
  | (u0, w0, c) :: rest, u, t =>
    if u0 = u ∧ w0 = weekIndex t then (u0, w0, c + 1) :: rest
    else (u0, w0, c) :: increment_invite_count rest u t

/-- Replay a history of issuance events for one user against an empty quota
table, each event incrementing at its own timestamp. -/
def replayIssuances (u : Nat) (times : List Nat) : QuotaTable :=
  times.foldl (fun tbl t => increment_invite_count tbl u t) []

/-- Membership of a timestamp in the trailing 7×24h window ending at the
query time (the spec's quota window). -/
def inWindowB (now t : Nat) : Bool := decide (t ≤ now ∧ now < t + 7 * 86400)

/-! ### Invite registry

Table `used_invites (invite_name PRIMARY KEY, referrer_id, created_at)`. -/

/-- Rows of `used_invites`: invite name, referrer id (0 encodes the SQL
`referrer_id or 0` of a missing referrer), creation time. -/
abbrev InviteTable := List (List Char × Nat × Nat)

/-- Function register_invite_name of bot.py: `INSERT OR REPLACE` keyed by
`invite_name` — an existing row for the same name is replaced, and
`referrer_id or 0` stores 0 for a missing referrer. -/
def register_invite_name : InviteTable → List Char → Option Nat → Nat → InviteTable
  | [], name, r, t => [(name, r.getD 0, t)]
  | (n0, r0, t0) :: rest, name, r, t =>
    if n0 = name then (name, r.getD 0, t) :: rest
    else (n0, r0, t0) :: register_invite_name rest name r t

/-- Row lookup in `used_invites` by invite name. -/
def lookupInvite : InviteTable → List Char → Option (List Char × Nat × Nat)
  | [], _ => none
  | (n0, r0, t0) :: rest, name =>
    if n0 = name then some (n0, r0, t0) else lookupInvite rest name

/-- Function get_referrer_by_invite of bot.py: the stored referrer, with the
0 sentinel read back as `None`. -/
def get_referrer_by_invite (tbl : InviteTable) (name : List Char) : Option Nat :=
  match lookupInvite tbl name with
  | some (_, r, _) => if r ≠ 0 then some r else none
  | none => none

/-! ### Engine state and the two handlers -/

/-- Durable state: the two SQLite tables. -/
structure DBState where
  invite_counts : QuotaTable
  used_invites : InviteTable
deriving DecidableEq, Repr

/-- Outcome of `app.bot.get_chat_member` as seen by `start_command`: the
raised-exception branch or a status string. -/
inductive MemberFetch
  | failed
  | ok (status : String)
deriving DecidableEq, Repr

/-- Result of `start_command`, one constructor per `return` path. -/
inductive StartResult
  | notPrivate
  | checkFailed
  | notMember
  | quotaExceeded
  | providerFailed
  | issued (inviteName : List Char) (expireDate : Nat)
deriving DecidableEq, Repr

/-- Handler start_command of bot.py.  Inputs beyond the durable state: the
chat type of the update, the requesting user id, the membership-fetch
outcome, the salt `uuid4().hex[:8]` drawn for this call, the current time and
whether `create_chat_invite_link` succeeds.  Returns the reply path taken and
the new durable state. -/
def start_command (st : DBState) (chatType : String) (userId : Nat)
    (fetch : MemberFetch) (salt : List Char) (now : Nat) (providerOk : Bool) :
    StartResult × DBState :=
  if chatType ≠ "private" then (.notPrivate, st)
  else
    match fetch with
    | .failed => (.checkFailed, st)
    | .ok status =>
      if ¬(status = "member" ∨ status = "creator" ∨ status = "administrator") then
        (.notMember, st)
      else
        let count := get_invite_count st.invite_counts userId now
        if count ≥ WEEKLY_INVITE_LIMIT then (.quotaExceeded, st)
        else
          let inviteName := encode userId salt
          let expireDate := now + INVITE_EXPIRE_SECONDS
          if ¬providerOk then (.providerFailed, st)
          else
            let st1 : DBState :=
              { st with used_invites :=
                  register_invite_name st.used_invites inviteName (some userId) now }
            let st2 : DBState :=
              { st1 with invite_counts :=
                  increment_invite_count st1.invite_counts userId now }
            (.issued inviteName expireDate, st2)

/-- Payload of `update.chat_member` as read by `chat_member_update`: old and
new member status, and the name of the invite link of the update, when any
(`None` collapses a missing `invite_link` object and a missing name; an empty
list models an empty name, which Python treats as falsy). -/
structure ChatMemberUpdated where
  oldStatus : String
  newStatus : String
  inviteLinkName : Option (List Char)
deriving DecidableEq, Repr

/-- Commands the join handler issues to its collaborators: whether a
restriction was requested and until when, whether a welcome announcement was
sent, and the referrer identity it displays (`none` renders as
"Referred by: Unknown"). -/
structure JoinActions where
  restrictIssued : Bool
  restrictUntil : Option Nat
  announced : Bool
  announcedReferrer : Option Int
deriving DecidableEq, Repr

/-- Actions of an update the handler ignores. -/
def noActions : JoinActions := ⟨false, none, false, none⟩

/-- Transition filter of chat_member_update:
`old in ("left", "kicked") and new in ("member", "administrator", "creator")`. -/
def joinTransition (old new : String) : Bool :=
  (old == "left" || old == "kicked") &&
    (new == "member" || new == "administrator" || new == "creator")

/-- Does an update carry a chat_member payload with a join transition? -/
def isJoinEvent : Option ChatMemberUpdated → Bool
  | none => false
  | some cmu => joinTransition cmu.oldStatus cmu.newStatus

/-- Handler chat_member_update of bot.py.  On a join transition it decodes
the referrer from the invite-link name (Python truthiness: an integer 0 is
displayed as unknown), issues the 24h restriction and the announcement, and
leaves the database untouched — the usage-recording branch of the source is
`pass`.  Every other update does nothing. -/
def chat_member_update (st : DBState) (upd : Option ChatMemberUpdated) (now : Nat) :
    JoinActions × DBState :=
  match upd with
  | none => (noActions, st)
  | some cmu =>
    if joinTransition cmu.oldStatus cmu.newStatus then
      let referrerInfo : Option Int :=
        match cmu.inviteLinkName with
        | some name => if name ≠ [] then decode name else none
        | none => none
      let referredBy : Option Int :=
        match referrerInfo with
        | some v => if v ≠ 0 then some v else none
        | none => none
      (⟨true, some (now + MUTE_SECONDS), true, referredBy⟩, st)
    else (noActions, st)

/-! ### Helper lemmas: characters and digit strings -/

lemma digitChar_spec (m : Nat) (h : m < 10) :
    (digitChar m).isDigit = true ∧ (digitChar m).toNat - 48 = m := by
  interval_cases m <;> exact ⟨by decide, by decide⟩

lemma digit_ne_colon {c : Char} (h : c.isDigit = true) : c ≠ ':' := by
  intro e; subst e; exact absurd h (by decide)

lemma digit_ne_plus {c : Char} (h : c.isDigit = true) : c ≠ '+' := by
  intro e; subst e; exact absurd h (by decide)

lemma digit_ne_minus {c : Char} (h : c.isDigit = true) : c ≠ '-' := by
  intro e; subst e; exact absurd h (by decide)

lemma digit_ne_underscore {c : Char} (h : c.isDigit = true) : c ≠ '_' := by
  intro e; subst e; exact absurd h (by decide)

lemma digit_not_space {c : Char} (h : c.isDigit = true) : isPySpace c = false := by
  cases hq : isPySpace c with
  | false => rfl
  | true =>
    exfalso
    simp only [isPySpace, Bool.or_eq_true, beq_iff_eq] at hq
    rcases hq with ((((hq | hq) | hq) | hq) | hq) | hq <;> subst hq <;>
      exact absurd h (by decide)

lemma natDecimalAux_irrel :
    ∀ f1 n f2, n < f1 → n < f2 → natDecimalAux f1 n = natDecimalAux f2 n := by
  intro f1
  induction f1 with
  | zero => intro n f2 h1 _; omega
  | succ f ih =>
    intro n f2 h1 h2
    cases f2 with
    | zero => omega
    | succ f2' =>
      simp only [natDecimalAux]
      by_cases h : n < 10
      · simp [h]
      · simp only [if_neg h]
        rw [ih (n / 10) f2' (by omega) (by omega)]

lemma natDecimal_lt {n : Nat} (h : n < 10) : natDecimal n = [digitChar n] := by
  simp [natDecimal, natDecimalAux, h]

lemma natDecimal_ge {n : Nat} (h : ¬n < 10) :
    natDecimal n = natDecimal (n / 10) ++ [digitChar (n % 10)] := by
  have hstep : natDecimalAux (n + 1) n =
      if n < 10 then [digitChar n] else natDecimalAux n (n / 10) ++ [digitChar (n % 10)] := rfl
  unfold natDecimal
  rw [hstep, if_neg h, natDecimalAux_irrel n (n / 10) (n / 10 + 1) (by omega) (by omega)]

lemma natDecimal_ne_nil (n : Nat) : natDecimal n ≠ [] := by
  by_cases h : n < 10
  · rw [natDecimal_lt h]; simp
  · rw [natDecimal_ge h]; simp

lemma natDecimal_digits (n : Nat) : ∀ c ∈ natDecimal n, c.isDigit = true := by
  induction n using Nat.strong_induction_on with
  | _ n ih =>
    by_cases h : n < 10
    · rw [natDecimal_lt h]
      intro c hc
      simp only [List.mem_singleton] at hc
      subst hc
      exact (digitChar_spec n h).1
    · rw [natDecimal_ge h]
      intro c hc
      rcases List.mem_append.mp hc with hc | hc
      · exact ih (n / 10) (by omega) c hc
      · simp only [List.mem_singleton] at hc
        subst hc
        exact (digitChar_spec (n % 10) (by omega)).1

lemma foldl_digitStep_natDecimal (n : Nat) :
    ∀ acc : Nat, List.foldl digitStep acc (natDecimal n) =
      acc * 10 ^ (natDecimal n).length + n := by
  induction n using Nat.strong_induction_on with
  | _ n ih =>
    intro acc
    by_cases h : n < 10
    · rw [natDecimal_lt h]
      have hs := digitChar_spec n h
      simp [digitStep, hs.1, hs.2]
    · rw [natDecimal_ge h, List.foldl_append, ih (n / 10) (by omega) acc]
      have hs := digitChar_spec (n % 10) (by omega)
      simp only [List.foldl_cons, List.foldl_nil, digitStep, hs.1, if_true, hs.2,
        List.length_append, List.length_singleton]
      rw [pow_succ]
      have hx : (acc * 10 ^ (natDecimal (n / 10)).length + n / 10) * 10 =
          acc * (10 ^ (natDecimal (n / 10)).length * 10) + n / 10 * 10 := by ring
      rw [hx, Nat.add_assoc]
      congr 1
      omega

lemma digitsValue_natDecimal (n : Nat) : digitsValue (natDecimal n) = n := by
  have := foldl_digitStep_natDecimal n 0
  simpa [digitsValue] using this

lemma natDecimal_inj {a b : Nat} (h : natDecimal a = natDecimal b) : a = b := by
  have ha := digitsValue_natDecimal a
  rw [h, digitsValue_natDecimal] at ha
  omega

lemma noDouble_of_no_underscore :
    ∀ l : List Char, (∀ c ∈ l, c ≠ '_') → noDoubleUnderscore l = true := by
  intro l
  induction l with
  | nil => intro _; rfl
  | cons a t ih =>
    intro h
    cases t with
    | nil => rfl
    | cons b r =>
      simp only [noDoubleUnderscore, Bool.and_eq_true, Bool.not_eq_true']
      refine ⟨?_, ih (fun c hc => h c (by simp [hc]))⟩
      have ha : a ≠ '_' := h a (by simp)
      simp [ha]

lemma validDigits_natDecimal (n : Nat) : validDigits (natDecimal n) = true := by
  have hd := natDecimal_digits n
  have hne := natDecimal_ne_nil n
  obtain ⟨c0, rest0, hcr⟩ := List.exists_cons_of_ne_nil hne
  simp only [validDigits, Bool.and_eq_true]
  refine ⟨⟨⟨⟨?_, ?_⟩, ?_⟩, ?_⟩, ?_⟩
  · rw [hcr]; rfl
  · rw [List.all_eq_true]
    intro c hc
    simp [hd c hc]
  · rw [hcr]
    simp only [headDigit]
    exact hd c0 (by rw [hcr]; simp)
  · cases hr : (natDecimal n).reverse with
    | nil => exact absurd (by simpa using congrArg List.reverse hr) hne
    | cons c rest =>
      simp only [headDigit]
      have : c ∈ (natDecimal n).reverse := by rw [hr]; simp
      exact hd c (List.mem_reverse.mp this)
  · exact noDouble_of_no_underscore _ (fun c hc => digit_ne_underscore (hd c hc))

lemma dropWhile_of_none (p : Char → Bool) :
    ∀ m : List Char, (∀ c ∈ m, p c = false) → m.dropWhile p = m := by
  intro m hm
  cases m with
  | nil => rfl
  | cons a t => rw [List.dropWhile_cons]; simp [hm a (by simp)]

lemma stripPySpace_id (l : List Char) (h : ∀ c ∈ l, isPySpace c = false) :
    stripPySpace l = l := by
  unfold stripPySpace
  rw [dropWhile_of_none _ l h,
    dropWhile_of_none _ l.reverse (fun c hc => h c (List.mem_reverse.mp hc)),
    List.reverse_reverse]

lemma pyInt_natDecimal (x : Nat) : pyInt (natDecimal x) = some (x : Int) := by
  have hd := natDecimal_digits x
  have hs : stripPySpace (natDecimal x) = natDecimal x :=
    stripPySpace_id _ (fun c hc => digit_not_space (hd c hc))
  obtain ⟨c, rest, hcr⟩ := List.exists_cons_of_ne_nil (natDecimal_ne_nil x)
  have hc : c.isDigit = true := hd c (by rw [hcr]; simp)
  unfold pyInt
  rw [hs, hcr]
  simp only [pySigned, if_neg (digit_ne_plus hc), if_neg (digit_ne_minus hc)]
  rw [← hcr]
  simp [parseDigits, validDigits_natDecimal, digitsValue_natDecimal]

/-! ### Helper lemmas: colon splitting -/

lemma splitCols_colon_free :
    ∀ a : List Char, (∀ c ∈ a, c ≠ ':') → splitCols a = [a] := by
  intro a
  induction a with
  | nil => intro _; rfl
  | cons c t ih =>
    intro h
    have hc : c ≠ ':' := h c (by simp)
    simp only [splitCols, if_neg hc]
    rw [ih (fun d hd => h d (by simp [hd]))]
    rfl

lemma splitCols_append :
    ∀ (a b : List Char), (∀ c ∈ a, c ≠ ':') →
      splitCols (a ++ ':' :: b) = a :: splitCols b := by
  intro a
  induction a with
  | nil => intro b _; simp [splitCols]
  | cons c t ih =>
    intro b h
    have hc : c ≠ ':' := h c (by simp)
    simp only [List.cons_append, splitCols, if_neg hc, List.append_eq]
    rw [ih b (fun d hd => h d (by simp [hd]))]
    rfl

lemma colon_split_inj :
    ∀ (a b x y : List Char), (∀ c ∈ a, c ≠ ':') → (∀ c ∈ b, c ≠ ':') →
      a ++ ':' :: x = b ++ ':' :: y → a = b ∧ x = y := by
  intro a
  induction a with
  | nil =>
    intro b x y _ hb h
    cases b with
    | nil => simp at h; exact ⟨rfl, h⟩
    | cons d t =>
      simp only [List.nil_append, List.cons_append, List.cons.injEq] at h
      exact absurd h.1.symm (hb d (by simp))
  | cons c t ih =>
    intro b x y ha hb h
    cases b with
    | nil =>
      simp only [List.cons_append, List.nil_append, List.cons.injEq] at h
      exact absurd h.1 (ha c (by simp))
    | cons d s =>
      simp only [List.cons_append, List.cons.injEq] at h
      obtain ⟨hcd, hrest⟩ := h
      obtain ⟨h1, h2⟩ := ih s x y (fun e he => ha e (by simp [he]))
        (fun e he => hb e (by simp [he])) hrest
      exact ⟨by rw [hcd, h1], h2⟩

lemma encode_shape (x : Nat) (salt : List Char) :
    encode x salt = ['r', 'e', 'f'] ++ ':' :: (natDecimal x ++ ':' :: salt) := by
  simp [encode, refTag]

lemma hasRefTag_encode (x : Nat) (salt : List Char) :
    hasRefTag (encode x salt) = true := by
  rw [encode_shape]
  rfl

lemma splitCols_encode (x : Nat) (salt : List Char) :
    splitCols (encode x salt) = ['r', 'e', 'f'] :: natDecimal x :: splitCols salt := by
  rw [encode_shape, splitCols_append _ _ (by decide),
    splitCols_append _ _ (fun c hc => digit_ne_colon (natDecimal_digits x c hc))]

lemma decode_encode (x : Nat) (salt : List Char) :
    decode (encode x salt) = some (x : Int) := by
  unfold decode
  rw [if_pos (hasRefTag_encode x salt)]
  unfold secondField
  rw [splitCols_encode]
  simp [pyInt_natDecimal]

/-! ### Helper lemmas: quota store -/

lemma quotaLookup_increment (tbl : QuotaTable) (u t w : Nat) :
    (quotaLookup (increment_invite_count tbl u t) u w).getD 0 =
      (quotaLookup tbl u w).getD 0 + (if weekIndex t = w then 1 else 0) := by
  induction tbl with
  | nil =>
    have hstep : increment_invite_count ([] : QuotaTable) u t = [(u, weekIndex t, 1)] := rfl
    rw [hstep]
    by_cases h : weekIndex t = w
    · have l1 : quotaLookup [(u, weekIndex t, 1)] u w = some 1 := by
        simp [quotaLookup, h]
      rw [l1, if_pos h]
      rfl
    · have l1 : quotaLookup [(u, weekIndex t, 1)] u w = none := by
        simp [quotaLookup, h]
      rw [l1, if_neg h]
      rfl
  | cons row rest ih =>
    obtain ⟨u0, w0, c⟩ := row
    by_cases h1 : u0 = u ∧ w0 = weekIndex t
    · have hstep : increment_invite_count ((u0, w0, c) :: rest) u t =
          (u0, w0, c + 1) :: rest := by
        simp only [increment_invite_count]
        rw [if_pos h1]
      rw [hstep]
      by_cases h2 : weekIndex t = w
      · have hkey : u0 = u ∧ w0 = w := ⟨h1.1, by rw [h1.2, h2]⟩
        have l1 : quotaLookup ((u0, w0, c + 1) :: rest) u w = some (c + 1) := by
          simp only [quotaLookup]
          rw [if_pos hkey]
        have l2 : quotaLookup ((u0, w0, c) :: rest) u w = some c := by
          simp only [quotaLookup]
          rw [if_pos hkey]
        rw [l1, l2, if_pos h2]
        rfl
      · have hkey : ¬(u0 = u ∧ w0 = w) := by
          intro hc
          exact h2 (by rw [← h1.2, hc.2])
        have l1 : quotaLookup ((u0, w0, c + 1) :: rest) u w = quotaLookup rest u w := by
          simp only [quotaLookup]
          rw [if_neg hkey]
        have l2 : quotaLookup ((u0, w0, c) :: rest) u w = quotaLookup rest u w := by
          simp only [quotaLookup]
          rw [if_neg hkey]
        rw [l1, l2, if_neg h2]
        rfl
    · have hstep : increment_invite_count ((u0, w0, c) :: rest) u t =
          (u0, w0, c) :: increment_invite_count rest u t := by
        simp only [increment_invite_count, if_neg h1]
      rw [hstep]
      simp only [quotaLookup]
      by_cases h2 : u0 = u ∧ w0 = w
      · rw [if_pos h2, if_pos h2]
        have hne : ¬weekIndex t = w := by
          intro he
          exact h1 ⟨h2.1, by rw [h2.2, he]⟩
        rw [if_neg hne]
        rfl
      · rw [if_neg h2, if_neg h2]
        exact ih

lemma get_increment (tbl : QuotaTable) (u t now : Nat) :
    get_invite_count (increment_invite_count tbl u t) u now =
      get_invite_count tbl u now + (if weekIndex t = weekIndex now then 1 else 0) := by
  unfold get_invite_count
  exact quotaLookup_increment tbl u t (weekIndex now)

lemma replay_count :
    ∀ (times : List Nat) (tbl : QuotaTable) (u now : Nat),
      get_invite_count (times.foldl (fun s t => increment_invite_count s u t) tbl) u now =
        get_invite_count tbl u now +
          (times.filter (fun t => decide (weekIndex t = weekIndex now))).length := by
  intro times
  induction times with
  | nil => intro tbl u now; simp
  | cons t ts ih =>
    intro tbl u now
    simp only [List.foldl_cons]
    rw [ih, get_increment]
    by_cases h : weekIndex t = weekIndex now
    · rw [if_pos h]
      have hf : List.filter (fun x => decide (weekIndex x = weekIndex now)) (t :: ts) =
          t :: List.filter (fun x => decide (weekIndex x = weekIndex now)) ts := by
        simp [List.filter_cons, h]
      rw [hf, List.length_cons]
      omega
    · rw [if_neg h]
      have hf : List.filter (fun x => decide (weekIndex x = weekIndex now)) (t :: ts) =
          List.filter (fun x => decide (weekIndex x = weekIndex now)) ts := by
        simp [List.filter_cons, h]
      rw [hf]
      omega

lemma get_replay (u : Nat) (times : List Nat) (now : Nat) :
    get_invite_count (replayIssuances u times) u now =
      (times.filter (fun t => decide (weekIndex t = weekIndex now))).length := by
  unfold replayIssuances
  rw [replay_count]
  simp [get_invite_count, quotaLookup]

lemma sameWeek_window {t now : Nat} (h1 : t ≤ now) (h2 : weekIndex t = weekIndex now) :
    now < t + 7 * 86400 := by
  unfold weekIndex at h2
  omega

/-! ### Claim theorems -/

/-- Claim C1: the quota count returned for a user at a query time counts only
issuance events within the trailing 7×24h window ending at the query time:
dropping the events outside the window leaves the count unchanged, the count
never exceeds the number of in-window events, and a user whose two issuances
(limit 2) at t=0 and t=1h have aged out by t=7d+1h is issued an invite
again. -/
theorem quota_counts_only_window (u now : Nat) (times : List Nat)
    (h : ∀ t ∈ times, t ≤ now) :
    get_invite_count (replayIssuances u times) u now =
      get_invite_count (replayIssuances u (times.filter (inWindowB now))) u now ∧
    get_invite_count (replayIssuances u times) u now ≤
      (times.filter (inWindowB now)).length ∧
    get_invite_count (replayIssuances 5 [0, 3600]) 5 (7 * 86400 + 3600) = 0 ∧
    (start_command ⟨replayIssuances 5 [0, 3600], []⟩ "private" 5 (.ok "member")
        ['0', '1', '2', '3', '4', '5', '6', '7'] (7 * 86400 + 3600) true).1 =
      .issued (encode 5 ['0', '1', '2', '3', '4', '5', '6', '7'])
        (7 * 86400 + 3600 + 3600) := by
  have key : times.filter (fun t => decide (weekIndex t = weekIndex now)) =
      (times.filter (inWindowB now)).filter
        (fun t => decide (weekIndex t = weekIndex now)) := by
    rw [List.filter_filter]
    apply List.filter_congr
    intro t ht
    by_cases hw : weekIndex t = weekIndex now
    · have hin : inWindowB now t = true := by
        unfold inWindowB
        exact decide_eq_true ⟨h t ht, sameWeek_window (h t ht) hw⟩
      simp [hw, hin]
    · simp [hw]
  refine ⟨?_, ?_, by decide, by decide⟩
  · rw [get_replay, get_replay, key]
  · rw [get_replay, key]
    exact List.length_filter_le _ _

/-- Witness for C1 at the scenario input. -/
theorem quota_counts_only_window_witness :
    get_invite_count (replayIssuances 5 [0, 3600]) 5 (7 * 86400 + 3600) = 0 :=
  (quota_counts_only_window 5 (7 * 86400 + 3600) [0, 3600] (by decide)).2.2.1

/-- Claim C2 counterexample: two issuances late on a Sunday (epoch seconds
339200 and 341200, both inside the trailing 7×24h window of the
Monday-morning query at 349200, so the in-window issuance count equals
WEEKLY_INVITE_LIMIT) fall into the previous ISO calendar week: the stored
count for the query's week is 0 and the request is issued, not denied as
quota-exceeded — so the claimed "denied exactly when the in-window count is
at least the limit" fails in the only-if direction. -/
theorem quota_window_gate_refuted :
    (List.filter (inWindowB 349200) [339200, 341200]).length = WEEKLY_INVITE_LIMIT ∧
    get_invite_count (replayIssuances 1 [339200, 341200]) 1 349200 = 0 ∧
    (start_command ⟨replayIssuances 1 [339200, 341200], []⟩ "private" 1
        (.ok "member") ['a'] 349200 true).1 =
      .issued (encode 1 ['a']) (349200 + INVITE_EXPIRE_SECONDS) :=
  ⟨by decide, by decide, by decide⟩

/-- Claim C2 amended: with the membership precondition satisfied,
`start_command` is denied as quota-exceeded exactly when the stored issuance
count for the requester's current ISO calendar week is at least
WEEKLY_INVITE_LIMIT (the calendar-week bucket, not the claim's trailing-window
count — the two differ across a week boundary), a denial leaves the state
untouched, and at week-count = limit − 1 the request proceeds to minting
(with a working provider it is issued). -/
theorem quota_gate (st : DBState) (u : Nat) (status : String) (salt : List Char)
    (now : Nat) (pOk : Bool)
    (hs : status = "member" ∨ status = "creator" ∨ status = "administrator") :
    ((start_command st "private" u (.ok status) salt now pOk).1 = .quotaExceeded ↔
      WEEKLY_INVITE_LIMIT ≤ get_invite_count st.invite_counts u now) ∧
    ((start_command st "private" u (.ok status) salt now pOk).1 = .quotaExceeded →
      (start_command st "private" u (.ok status) salt now pOk).2 = st) ∧
    (get_invite_count st.invite_counts u now = WEEKLY_INVITE_LIMIT - 1 → pOk = true →
      (start_command st "private" u (.ok status) salt now pOk).1 =
        .issued (encode u salt) (now + INVITE_EXPIRE_SECONDS)) := by
  refine ⟨?_, ?_, ?_⟩
  · cases pOk <;>
      by_cases hq : WEEKLY_INVITE_LIMIT ≤ get_invite_count st.invite_counts u now <;>
      simp [start_command, hs, hq]
  · intro hres
    by_cases hq : WEEKLY_INVITE_LIMIT ≤ get_invite_count st.invite_counts u now
    · simp [start_command, hs, hq]
    · exfalso
      cases pOk <;> simp [start_command, hs, hq] at hres
  · intro hcnt hpOk
    subst hpOk
    have hq : ¬(WEEKLY_INVITE_LIMIT ≤ get_invite_count st.invite_counts u now) := by
      rw [hcnt]
      decide
    simp [start_command, hs, hq]

/-- Witness for C2: one prior issuance this week (count = limit − 1 = 1), a
member requester and a working provider yield an issued invite. -/
theorem quota_gate_witness :
    (start_command ⟨[(1, 0, 1)], []⟩ "private" 1 (MemberFetch.ok "member") ['a'] 0
        true).1 =
      StartResult.issued (encode 1 ['a']) (0 + INVITE_EXPIRE_SECONDS) :=
  (quota_gate ⟨[(1, 0, 1)], []⟩ 1 "member" ['a'] 0 true (Or.inl rfl)).2.2 (by decide) rfl

/-- Claim C3: decoding an encoded referrer recovers it exactly, and a string
missing the `ref:` prefix, or whose second colon-field is not a well-formed
Python integer, decodes to `none` (the handler catches the exception, so
nothing is raised). -/
theorem codec_round_trip_graceful :
    (∀ (x : Nat) (salt : List Char), decode (encode x salt) = some (x : Int)) ∧
    (∀ s : List Char, hasRefTag s = false → decode s = none) ∧
    (∀ (s p : List Char), hasRefTag s = true → secondField s = some p →
      pyInt p = none → decode s = none) := by
  refine ⟨decode_encode, ?_, ?_⟩
  · intro s htag
    simp [decode, htag]
  · intro s p h1 h2 h3
    simp [decode, h1, h2, h3]

/-- Witness for C3 at concrete inputs. -/
theorem codec_round_trip_graceful_witness :
    decode (encode 42 ['d', 'e', 'a', 'd', 'b', 'e', 'e', 'f']) = some 42 ∧
    decode ['x', 'y'] = none ∧
    decode ['r', 'e', 'f', ':', '4', 'x'] = none :=
  ⟨codec_round_trip_graceful.1 42 ['d', 'e', 'a', 'd', 'b', 'e', 'e', 'f'],
   codec_round_trip_graceful.2.1 ['x', 'y'] (by decide),
   codec_round_trip_graceful.2.2 ['r', 'e', 'f', ':', '4', 'x'] ['4', 'x']
     (by decide) (by decide) (by decide)⟩

/-- Salt value the generator `uuid4().hex[:8]` can draw (all zeros). -/
def saltZero : List Char := ['0', '0', '0', '0', '0', '0', '0', '0']

/-- Claim C4 counterexample: two calls with the same drawn salt produce the
identical token name, so "the two produced token_names differ" fails; the
salt alphabet is 16 symbols over 8 positions, 16^8 = 2^32 possibilities,
below the 256^6 floor demanded by "minimum 6 bytes of entropy". -/
theorem encode_unique_refuted :
    ¬(∀ (r1 r2 : Nat) (s1 s2 : List Char), validSaltB s1 = true →
        validSaltB s2 = true → encode r1 s1 ≠ encode r2 s2) ∧
    validSaltB saltZero = true ∧ (16 : Nat) ^ saltZero.length < 256 ^ 6 :=
  ⟨fun hcl => hcl 7 7 saltZero saltZero (by decide) (by decide) rfl,
   by decide, by decide⟩

/-- Claim C4 amended: two calls to encode produce the same token name exactly
when they use the same referrer and the same drawn salt; with a salt of only
8 lowercase-hex characters (4 bytes of entropy, not the claimed minimum 6)
distinctness therefore holds only as long as the drawn salts differ. -/
theorem encode_eq_iff (r1 r2 : Nat) (s1 s2 : List Char) :
    encode r1 s1 = encode r2 s2 ↔ r1 = r2 ∧ s1 = s2 := by
  constructor
  · intro h
    rw [encode_shape, encode_shape] at h
    have h' : natDecimal r1 ++ ':' :: s1 = natDecimal r2 ++ ':' :: s2 := by
      simpa using h
    obtain ⟨h1, h2⟩ := colon_split_inj _ _ _ _
      (fun c hc => digit_ne_colon (natDecimal_digits r1 c hc))
      (fun c hc => digit_ne_colon (natDecimal_digits r2 c hc)) h'
    exact ⟨natDecimal_inj h1, h2⟩
  · rintro ⟨h1, h2⟩
    rw [h1, h2]

/-- Claim C5: when the provider call fails, `start_command` mutates neither
table, never reports an issuance, and on the path that reaches the provider
(private chat, member, quota available) reports the provider failure. -/
theorem provider_failure_no_mutation (st : DBState) (ct : String) (u : Nat)
    (f : MemberFetch) (salt : List Char) (now : Nat) :
    (start_command st ct u f salt now false).2 = st ∧
    (∀ n e, (start_command st ct u f salt now false).1 ≠ .issued n e) ∧
    (∀ status, f = .ok status → ct = "private" →
      (status = "member" ∨ status = "creator" ∨ status = "administrator") →
      get_invite_count st.invite_counts u now < WEEKLY_INVITE_LIMIT →
      (start_command st ct u f salt now false).1 = .providerFailed) := by
  have hmain : (start_command st ct u f salt now false).2 = st ∧
      (∀ n e, (start_command st ct u f salt now false).1 ≠ .issued n e) := by
    by_cases hct : ct = "private"
    · subst hct
      cases f with
      | failed => simp [start_command]
      | ok status =>
        by_cases hsm : status = "member" ∨ status = "creator" ∨ status = "administrator"
        · by_cases hq : WEEKLY_INVITE_LIMIT ≤ get_invite_count st.invite_counts u now <;>
            simp [start_command, hsm, hq]
        · simp [start_command, hsm]
    · simp [start_command, hct]
  refine ⟨hmain.1, hmain.2, ?_⟩
  intro status hf hct hsm hq
  subst hf
  subst hct
  have hq' : ¬(WEEKLY_INVITE_LIMIT ≤ get_invite_count st.invite_counts u now) := by omega
  simp [start_command, hsm, hq']

/-- Witness for C5 at a concrete input reaching the provider. -/
theorem provider_failure_no_mutation_witness :
    (start_command ⟨[], []⟩ "private" 1 (MemberFetch.ok "member") ['a'] 0 false).1 =
      StartResult.providerFailed ∧
    (start_command ⟨[], []⟩ "private" 1 (MemberFetch.ok "member") ['a'] 0 false).2 =
      (⟨[], []⟩ : DBState) :=
  ⟨(provider_failure_no_mutation ⟨[], []⟩ "private" 1 (.ok "member") ['a'] 0).2.2
      "member" rfl rfl (Or.inl rfl) (by decide),
   (provider_failure_no_mutation ⟨[], []⟩ "private" 1 (.ok "member") ['a'] 0).1⟩

/-- Claim C6 counterexample: registering a token name that already exists
does not fail — the `INSERT OR REPLACE` silently replaces the existing row,
so the record (t, 1, 100) is overwritten by (t, 2, 200). -/
theorem register_overwrites :
    lookupInvite (register_invite_name [] ['t'] (some 1) 100) ['t'] =
      some (['t'], 1, 100) ∧
    register_invite_name (register_invite_name [] ['t'] (some 1) 100) ['t']
        (some 2) 200 = [(['t'], 2, 200)] ∧
    lookupInvite (register_invite_name (register_invite_name [] ['t'] (some 1) 100)
        ['t'] (some 2) 200) ['t'] = some (['t'], 2, 200) :=
  ⟨by decide, by decide, by decide⟩

/-- Claim C6 amended: the registry create operation never fails and always
wins: after registering a token the stored row for that token is the newly
written one, replacing any existing record (last write wins). -/
theorem register_replaces (tbl : InviteTable) (name : List Char) (r : Option Nat)
    (t : Nat) :
    lookupInvite (register_invite_name tbl name r t) name = some (name, r.getD 0, t) := by
  induction tbl with
  | nil => simp [register_invite_name, lookupInvite]
  | cons row rest ih =>
    obtain ⟨n0, r0, t0⟩ := row
    simp only [register_invite_name]
    split_ifs with h1
    · simp [lookupInvite]
    · simp only [lookupInvite, if_neg h1]
      exact ih

/-- Claim C7 counterexample: the join handler marks nothing used — a second
join event carrying the same tracked token is attributed to the same referrer
again (no AlreadyUsed, attribution not unknown) and the registry is bytewise
unchanged after both redemptions. -/
theorem second_redemption_succeeds :
    ((chat_member_update ⟨[], [(encode 42 ['a', 'a'], 42, 1000)]⟩
        (some ⟨"left", "member", some (encode 42 ['a', 'a'])⟩) 2000).1.announcedReferrer =
      some 42) ∧
    ((chat_member_update (chat_member_update ⟨[], [(encode 42 ['a', 'a'], 42, 1000)]⟩
          (some ⟨"left", "member", some (encode 42 ['a', 'a'])⟩) 2000).2
        (some ⟨"left", "member", some (encode 42 ['a', 'a'])⟩) 2100).1.announcedReferrer =
      some 42) ∧
    ((chat_member_update (chat_member_update ⟨[], [(encode 42 ['a', 'a'], 42, 1000)]⟩
          (some ⟨"left", "member", some (encode 42 ['a', 'a'])⟩) 2000).2
        (some ⟨"left", "member", some (encode 42 ['a', 'a'])⟩) 2100).2 =
      (⟨[], [(encode 42 ['a', 'a'], 42, 1000)]⟩ : DBState)) :=
  ⟨by decide, by decide, by decide⟩

/-- Claim C7 amended: the join handler never transitions a registry record —
it performs no state mutation at all, so a repeat of the same join event
yields the identical outcome instead of AlreadyUsed. -/
theorem join_never_marks_used (st : DBState) (upd : Option ChatMemberUpdated)
    (now : Nat) :
    (chat_member_update st upd now).2 = st ∧
    chat_member_update (chat_member_update st upd now).2 upd now =
      chat_member_update st upd now := by
  have h2 : (chat_member_update st upd now).2 = st := by
    cases upd with
    | none => rfl
    | some cmu =>
      simp only [chat_member_update]
      split_ifs <;> rfl
  exact ⟨h2, by rw [h2]⟩

/-- Claim C8 counterexample: a token registered at t=1000 nominally expires
at 1000 + 3600 = 4600, yet a join event at 4601 is still attributed to the
referrer decoded from the token name — the announcement does not show
"referrer unknown" and the registry records no Expired status (the state is
unchanged; the join is not blocked). -/
theorem expired_token_attributed :
    1000 + INVITE_EXPIRE_SECONDS < 4601 ∧
    ((chat_member_update ⟨[], [(encode 42 ['a', 'a'], 42, 1000)]⟩
        (some ⟨"left", "member", some (encode 42 ['a', 'a'])⟩) 4601).1.announcedReferrer =
      some 42) ∧
    ((chat_member_update ⟨[], [(encode 42 ['a', 'a'], 42, 1000)]⟩
        (some ⟨"left", "member", some (encode 42 ['a', 'a'])⟩) 4601).2 =
      (⟨[], [(encode 42 ['a', 'a'], 42, 1000)]⟩ : DBState)) :=
  ⟨by decide, by decide, by decide⟩

/-- Claim C8 amended: the join handler performs no expiry check: whatever the
current time, a join through a token name encoding referrer r is attributed
to r (for any real user id r > 0), no state changes, and the join is not
blocked. -/
theorem join_ignores_expiry (st : DBState) (oldS newS : String) (r : Nat)
    (salt : List Char) (now : Nat)
    (hj : joinTransition oldS newS = true) (hr : 0 < r) :
    (chat_member_update st (some ⟨oldS, newS, some (encode r salt)⟩)
        now).1.announcedReferrer = some (r : Int) ∧
    (chat_member_update st (some ⟨oldS, newS, some (encode r salt)⟩) now).2 = st := by
  have hne : encode r salt ≠ [] := by
    rw [encode_shape]; simp
  have hz : ((r : Int)) ≠ 0 := by omega
  constructor <;> simp [chat_member_update, hj, hne, decode_encode, hz]

/-- Witness for C8 amended at a concrete input. -/
theorem join_ignores_expiry_witness :
    (chat_member_update ⟨[], []⟩ (some ⟨"left", "member", some (encode 9 ['a'])⟩)
        5000).1.announcedReferrer = some 9 ∧
    (chat_member_update ⟨[], []⟩ (some ⟨"left", "member", some (encode 9 ['a'])⟩)
        5000).2 = (⟨[], []⟩ : DBState) :=
  ⟨(join_ignores_expiry ⟨[], []⟩ "left" "member" 9 ['a'] 5000 (by decide) (by decide)).1,
   (join_ignores_expiry ⟨[], []⟩ "left" "member" 9 ['a'] 5000 (by decide) (by decide)).2⟩

/-- Claim C9: whenever a string has the `ref:` prefix and its second
colon-field parses as an integer, decode returns that integer — fields beyond
the second (salt present, absent, or extra fields) are never inspected. -/
theorem decode_reads_second_field (s p : List Char) (k : Int)
    (h1 : hasRefTag s = true) (h2 : secondField s = some p) (h3 : pyInt p = some k) :
    decode s = some k := by
  simp [decode, h1, h2, h3]

/-- Witness for C9: a saltless token and one with extra fields decode to the
same referrer. -/
theorem decode_reads_second_field_witness :
    decode ['r', 'e', 'f', ':', '4', '2'] = some 42 ∧
    decode ['r', 'e', 'f', ':', '4', '2', ':', 'a', ':', 'b'] = some 42 :=
  ⟨decode_reads_second_field ['r', 'e', 'f', ':', '4', '2'] ['4', '2'] 42
      (by decide) (by decide) (by decide),
   decode_reads_second_field ['r', 'e', 'f', ':', '4', '2', ':', 'a', ':', 'b']
      ['4', '2'] 42 (by decide) (by decide) (by decide)⟩

/-- Claim C10: the restriction and the announcement are issued exactly for
chat-member payloads whose old status is left/kicked and whose new status is
member/administrator/creator; every other update (including a missing
payload) produces no action and leaves the state unchanged. -/
theorem join_actions_iff (st : DBState) (upd : Option ChatMemberUpdated) (now : Nat) :
    (((chat_member_update st upd now).1.restrictIssued = true ∨
        (chat_member_update st upd now).1.announced = true) ↔ isJoinEvent upd = true) ∧
    (isJoinEvent upd = false → chat_member_update st upd now = (noActions, st)) := by
  cases upd with
  | none => simp [chat_member_update, isJoinEvent, noActions]
  | some cmu =>
    by_cases h : joinTransition cmu.oldStatus cmu.newStatus = true
    · constructor
      · simp [chat_member_update, isJoinEvent, h]
      · intro hf
        rw [isJoinEvent, h] at hf
        cases hf
    · have hb : joinTransition cmu.oldStatus cmu.newStatus = false := by
        cases hq : joinTransition cmu.oldStatus cmu.newStatus with
        | false => rfl
        | true => exact absurd hq h
      simp [chat_member_update, isJoinEvent, hb, noActions]

/-- Witness for C10 at a payload-free update. -/
theorem join_actions_iff_witness :
    chat_member_update ⟨[], []⟩ none 0 = (noActions, (⟨[], []⟩ : DBState)) ∧
    isJoinEvent none = false :=
  ⟨(join_actions_iff ⟨[], []⟩ none 0).2 (by decide), by decide⟩

example : decode (encode 42 ['a', 'b', 'c', '1']) = some 42 := by decide
example : decode ['r', 'e', 'f', ':', '4', '2'] = some 42 := by decide
example : decode ['x', 'r', 'e', 'f', ':', '4'] = none := by decide
example : decode ['r', 'e', 'f', ':', '4', 'x', ':', 'b'] = none := by decide
example : pyInt ['1', '_', '2'] = some 12 := by decide
example : pyInt ['1', '_', '_', '2'] = none := by decide
example : pyInt [' ', '-', '4', '2', ' '] = some (-42) := by decide
example : weekIndex 0 = 0 ∧ weekIndex (7 * 86400 + 3600) = 1 := by decide
example :
    get_invite_count (replayIssuances 5 [0, 3600]) 5 (7 * 86400 + 3600) = 0 := by decide
example :
    get_invite_count (replayIssuances 5 [0, 3600]) 5 7200 = 2 := by decide
